import Mathlib

/-!
Verification of the networkluki crawler core (src/tools/analyzer.py).

The Python code is shallowly embedded: strings are lists of characters
(`Str`), fallible code (Python `raise ValueError`) returns `Except PyError`,
and the external collaborators declared in the spec (HTTP transport,
markup parser, codec registry) are universally-quantified oracle functions.
`urllib.parse` (urlsplit/urlparse/urljoin/urldefrag and friends) is embedded
from the CPython 3.8 sources, the baseline the repository declares
("Compatible with Python 3.8+").  `str.lower()` is modelled by its ASCII
action (non-ASCII characters are left unchanged), and `str.strip()` strips
whitespace characters; both are exact on the ASCII inputs used below.
-/

/-- Python strings, modelled as lists of characters. -/
abbrev Str := List Char

/-- A raised Python exception.  Only `ValueError` is relevant to the crawler. -/
inductive PyError where
  | valueError (msg : String)
deriving DecidableEq

/-- ASCII action of Python `str.lower` on one character. -/
def pyLowerChar : Char → Char
  | 'A' => 'a' | 'B' => 'b' | 'C' => 'c' | 'D' => 'd' | 'E' => 'e' | 'F' => 'f'
  | 'G' => 'g' | 'H' => 'h' | 'I' => 'i' | 'J' => 'j' | 'K' => 'k' | 'L' => 'l'
  | 'M' => 'm' | 'N' => 'n' | 'O' => 'o' | 'P' => 'p' | 'Q' => 'q' | 'R' => 'r'
  | 'S' => 's' | 'T' => 't' | 'U' => 'u' | 'V' => 'v' | 'W' => 'w' | 'X' => 'x'
  | 'Y' => 'y' | 'Z' => 'z'
  | c => c

/-- Python `s.lower()`. -/
def pyLower (s : Str) : Str := s.map pyLowerChar

/-- Python `s.strip()`: drop leading and trailing whitespace. -/
def pyStrip (s : Str) : Str :=
  ((s.dropWhile Char.isWhitespace).reverse.dropWhile Char.isWhitespace).reverse

/-- Index of the first occurrence of character `c` in `s` (Python `s.find(c)`,
with `none` standing for `-1`). -/
def findCharIdx : Str → Char → Option Nat
  | [], _ => none
  | a :: s, c => if a = c then some 0 else (findCharIdx s c).map (· + 1)

/-- Python `s.find(c, start)`: first occurrence of `c` at index `≥ start`. -/
def findCharFrom (s : Str) (c : Char) (start : Nat) : Option Nat :=
  (findCharIdx (s.drop start) c).map (· + start)

/-- Index of the last occurrence of `c` in `s` (Python `s.rfind(c)`). -/
def rfindCharIdx : Str → Char → Option Nat
  | [], _ => none
  | a :: s, c =>
    match rfindCharIdx s c with
    | some i => some (i + 1)
    | none => if a = c then some 0 else none

/-- Python `s.split(c, 1)`: split at the first occurrence of `c`
(the whole string and an empty tail if `c` is absent). -/
def splitOnce (s : Str) (c : Char) : Str × Str :=
  match findCharIdx s c with
  | some i => (s.take i, s.drop (i + 1))
  | none => (s, [])

/-- Python `s.split(c)`: split at every occurrence of `c`, keeping empties. -/
def pySplitChar (c : Char) : Str → List Str
  | [] => [[]]
  | a :: s =>
    if a = c then [] :: pySplitChar c s
    else
      match pySplitChar c s with
      | [] => [[a]]
      | r :: rs => (a :: r) :: rs

/-- Python `'/'.join(parts)`. -/
def joinSlash : List Str → Str
  | [] => []
  | [s] => s
  | s :: rest => s ++ '/' :: joinSlash rest

/-- Characters allowed in a URL scheme (urllib's `scheme_chars`). -/
def isSchemeChar (c : Char) : Bool :=
  c.isAlpha || c.isDigit || c = '+' || c = '-' || c = '.'

/-- Result of `urllib.parse.urlsplit`. -/
structure SplitResult where
  scheme : Str
  netloc : Str
  path : Str
  query : Str
  fragment : Str
deriving DecidableEq

/-- Result of `urllib.parse.urlparse` (adds `params`). -/
structure ParseResult where
  scheme : Str
  netloc : Str
  path : Str
  params : Str
  query : Str
  fragment : Str
deriving DecidableEq

/-- urllib's `_splitnetloc(url, start)`: cut at the first of `/`, `?`, `#`
at or after `start`, returning `(url[start:delim], url[delim:])`. -/
def splitnetloc (url : Str) (start : Nat) : Str × Str :=
  let d1 := (findCharFrom url '/' start).getD url.length
  let d2 := (findCharFrom url '?' start).getD url.length
  let d3 := (findCharFrom url '#' start).getD url.length
  let delim := min d1 (min d2 d3)
  ((url.drop start).take (delim - start), url.drop delim)

/-- CPython 3.8 `urllib.parse.urlsplit(url, scheme=dscheme,
allow_fragments=af)`.  The only raise site is the unbalanced-bracket check on
the netloc (`ValueError("Invalid IPv6 URL")`); the NFKC `_checknetloc` guard
is vacuous on ASCII input and is omitted. -/
def urlsplit (url0 : Str) (dscheme : Str) (af : Bool) : Except PyError SplitResult :=
  let step1 : Str × Str :=
    match findCharIdx url0 ':' with
    | some i =>
      if 0 < i ∧ (url0.take i).all isSchemeChar then
        (pyLower (url0.take i), url0.drop (i + 1))
      else (dscheme, url0)
    | none => (dscheme, url0)
  let scheme := step1.1
  let url1 := step1.2
  let nl : Str × Str :=
    if url1.take 2 = ['/', '/'] then splitnetloc url1 2 else ([], url1)
  let netloc := nl.1
  let url2 := nl.2
  if ('[' ∈ netloc ∧ ']' ∉ netloc) ∨ (']' ∈ netloc ∧ '[' ∉ netloc) then
    .error (.valueError "Invalid IPv6 URL")
  else
    let uf : Str × Str :=
      if af ∧ '#' ∈ url2 then splitOnce url2 '#' else (url2, [])
    let uq : Str × Str :=
      if '?' ∈ uf.1 then splitOnce uf.1 '?' else (uf.1, [])
    .ok ⟨scheme, netloc, uq.1, uq.2, uf.2⟩

/-- urllib's `_splitparams(url)`: split path parameters after the last `/`. -/
def splitparams (url : Str) : Str × Str :=
  let i : Option Nat :=
    if '/' ∈ url then
      match rfindCharIdx url '/' with
      | some j => findCharFrom url ';' j
      | none => none
    else findCharIdx url ';'
  match i with
  | some k => (url.take k, url.drop (k + 1))
  | none => (url, [])

/-- urllib's `uses_params` list (CPython 3.8). -/
def uses_params : List Str :=
  ["", "ftp", "hdl", "prospero", "http", "imap", "https", "shttp", "rtsp",
   "rtspu", "sip", "sips", "mms", "sftp", "tel"].map String.data

/-- CPython 3.8 `urllib.parse.urlparse(url, scheme=dscheme,
allow_fragments=af)`. -/
def urlparse (url : Str) (dscheme : Str) (af : Bool) : Except PyError ParseResult :=
  (urlsplit url dscheme af).map fun s =>
    if s.scheme ∈ uses_params ∧ ';' ∈ s.path then
      let pp := splitparams s.path
      ⟨s.scheme, s.netloc, pp.1, pp.2, s.query, s.fragment⟩
    else ⟨s.scheme, s.netloc, s.path, [], s.query, s.fragment⟩

/-- CPython 3.8 `urllib.parse.urlunsplit`. -/
def urlunsplit (scheme netloc url query fragment : Str) : Str :=
  let url1 :=
    if netloc ≠ [] ∨ (url ≠ [] ∧ url.take 2 = ['/', '/']) then
      '/' :: '/' :: netloc ++ (if url ≠ [] ∧ url.take 1 ≠ ['/'] then '/' :: url else url)
    else url
  let url2 := if scheme ≠ [] then scheme ++ ':' :: url1 else url1
  let url3 := if query ≠ [] then url2 ++ '?' :: query else url2
  if fragment ≠ [] then url3 ++ '#' :: fragment else url3

/-- CPython 3.8 `urllib.parse.urlunparse`: rejoin params into the path, then
unsplit. -/
def urlunparse (p : ParseResult) : Str :=
  let url := if p.params ≠ [] then p.path ++ ';' :: p.params else p.path
  urlunsplit p.scheme p.netloc url p.query p.fragment

/-- CPython 3.8 `urllib.parse.urldefrag`. -/
def urldefrag (url : Str) : Except PyError (Str × Str) :=
  if '#' ∈ url then
    (urlparse url [] true).map fun p =>
      (urlunparse ⟨p.scheme, p.netloc, p.path, p.params, p.query, []⟩, p.fragment)
  else .ok (url, [])

/-- urllib's `uses_relative` list (CPython 3.8). -/
def uses_relative : List Str :=
  ["", "ftp", "http", "gopher", "nntp", "imap", "wais", "file", "https",
   "shttp", "mms", "prospero", "rtsp", "rtspu", "sftp", "svn", "svn+ssh",
   "ws", "wss"].map String.data

/-- urllib's `uses_netloc` list (CPython 3.8). -/
def uses_netloc : List Str :=
  ["", "ftp", "http", "gopher", "nntp", "telnet", "imap", "wais", "file",
   "mms", "https", "shttp", "snews", "prospero", "rtsp", "rtspu", "rsync",
   "svn", "svn+ssh", "sftp", "nfs", "git", "git+ssh", "ws", "wss"].map
    String.data

/-- The `..`/`.` segment resolution loop inside `urljoin`
(`resolved_path.pop()` with `IndexError` ignored). -/
def resolveSegs : List Str → List Str → List Str
  | [], acc => acc
  | s :: rest, acc =>
    if s = ['.', '.'] then resolveSegs rest acc.dropLast
    else if s = ['.'] then resolveSegs rest acc
    else resolveSegs rest (acc ++ [s])

/-- `segments[1:-1] = filter(None, segments[1:-1])`: drop empty segments,
keeping the first and last elements. -/
def filterMiddle (segs : List Str) : List Str :=
  match segs with
  | [] => []
  | [s] => [s]
  | s :: rest =>
    match rest.getLast? with
    | none => [s]
    | some lastSeg => s :: (rest.dropLast.filter (fun t => t ≠ [])) ++ [lastSeg]

/-- CPython 3.8 `urllib.parse.urljoin(base, url, allow_fragments=af)`. -/
def urljoin (base url : Str) (af : Bool) : Except PyError Str :=
  if base = [] then .ok url
  else if url = [] then .ok base
  else do
    let b ← urlparse base [] af
    let u ← urlparse url b.scheme af
    if u.scheme ≠ b.scheme ∨ u.scheme ∉ uses_relative then
      return url
    else if u.scheme ∈ uses_netloc ∧ u.netloc ≠ [] then
      return urlunparse ⟨u.scheme, u.netloc, u.path, u.params, u.query, u.fragment⟩
    else
      let netloc := if u.scheme ∈ uses_netloc then b.netloc else u.netloc
      if u.path = [] ∧ u.params = [] then
        let query := if u.query = [] then b.query else u.query
        return urlunparse ⟨u.scheme, netloc, b.path, b.params, query, u.fragment⟩
      else
        let base_parts0 := pySplitChar '/' b.path
        let base_parts :=
          if base_parts0.getLast? ≠ some [] then base_parts0.dropLast else base_parts0
        let segments :=
          if u.path.take 1 = ['/'] then pySplitChar '/' u.path
          else filterMiddle (base_parts ++ pySplitChar '/' u.path)
        let resolved0 := resolveSegs segments []
        let resolved :=
          if segments.getLast? = some ['.'] ∨ segments.getLast? = some ['.', '.'] then
            resolved0 ++ [[]]
          else resolved0
        let joined := joinSlash resolved
        return urlunparse
          ⟨u.scheme, netloc, (if joined = [] then ['/'] else joined), u.params,
            u.query, u.fragment⟩

/-- Function `normalize_url` from src/tools/analyzer.py: drop the fragment, lower-case
scheme and netloc, re-serialize, and strip one trailing slash unless the
re-parsed path is `""` or `"/"`.  `rebuilt.endswith("/")` is
`rebuilt.getLast? = some '/'`. -/
def normalize_url (url0 : Str) : Except PyError Str := do
  let d ← urldefrag url0
  let parsed ← urlparse d.1 [] true
  let rebuilt := urlunparse
    ⟨pyLower parsed.scheme, pyLower parsed.netloc, parsed.path, parsed.params,
      parsed.query, parsed.fragment⟩
  let p2 ← urlparse rebuilt [] true
  if ¬(p2.path = [] ∨ p2.path = ['/']) ∧ rebuilt.getLast? = some '/' then
    return rebuilt.dropLast
  else
    return rebuilt

/-- Function `same_site` from src/tools/analyzer.py: lower-case both netlocs, strip one
leading `www.`, then equal or dot-separated suffix either way. -/
def same_site (netloc_a netloc_b : Str) : Bool :=
  let a0 := pyLower netloc_a
  let b0 := pyLower netloc_b
  let a := if "www.".data.isPrefixOf a0 then a0.drop 4 else a0
  let b := if "www.".data.isPrefixOf b0 then b0.drop 4 else b0
  a == b || ('.' :: b).isSuffixOf a || ('.' :: a).isSuffixOf b

/-- Function `is_probably_web_link` from src/tools/analyzer.py. -/
def is_probably_web_link (href : Str) : Bool :=
  let href_l := pyStrip (pyLower href)
  if href_l = [] then false
  else if (["#", "mailto:", "tel:", "javascript:", "data:"].map String.data).any
      (fun p => p.isPrefixOf href_l) then false
  else true

/-- Constant `MAX_BYTES` from src/tools/analyzer.py: 2MB body cap. -/
def MAX_BYTES : Nat := 2000000

/-- Python `needle in hay` on strings: contiguous-substring containment. -/
def pyContainsSub (needle : Str) : Str → Bool
  | [] => decide (needle = [])
  | c :: rest => needle.isPrefixOf (c :: rest) || pyContainsSub needle rest

/-- A transport response as the crawler observes it: `ok` is whether
`raise_for_status()` passes, `contentType` is `headers.get("Content-Type")`,
`chunks` the streamed body (`iter_content`), `encoding` is `r.encoding`. -/
structure HttpResponse where
  ok : Bool
  contentType : Option Str
  chunks : List (List Nat)
  encoding : Option Str

/-- The chunk-accumulation loop of `fetch_page`: stop at an empty chunk,
return `none` (skip) once the accumulated length exceeds `MAX_BYTES`. -/
def accumulateChunks : List (List Nat) → List Nat → Option (List Nat)
  | [], content => some content
  | c :: cs, content =>
    if c = [] then some content
    else
      let content2 := content ++ c
      if content2.length > MAX_BYTES then none
      else accumulateChunks cs content2

/-- Function `fetch_page` from src/tools/analyzer.py over an abstract transport
response.  `none` in, or a non-2xx status, models `requests.RequestException`
(caught: return `None`); a non-HTML content type or an oversized body also
return `None`.  `decodeEnc` is the codec registry (`none` = `LookupError`),
`decodeUtf8Replace` the permissive UTF-8 fallback; both are collaborator
oracles. -/
def fetch_page (decodeEnc : Str → List Nat → Option Str)
    (decodeUtf8Replace : List Nat → Str) : Option HttpResponse → Option Str
  | none => none
  | some r =>
    if ¬r.ok then none
    else
      let ctype := pyLower (r.contentType.getD [])
      if ¬(pyContainsSub "text/html".data ctype ∨
            pyContainsSub "application/xhtml+xml".data ctype) then none
      else
        match accumulateChunks r.chunks [] with
        | none => none
        | some content =>
          let enc :=
            match r.encoding with
            | some e => if e = [] then "utf-8".data else e
            | none => "utf-8".data
          some
            (match decodeEnc enc content with
             | some s => s
             | none => decodeUtf8Replace content)

/-- Python's `\w` word character, ASCII range (`[a-zA-Z0-9_]`). -/
def isWordChar (c : Char) : Bool := c.isAlphanum || c = '_'

/-- Whether the character at index `i` of `text` is a word character
(out-of-range counts as non-word). -/
def wordAt (text : Str) (i : Nat) : Bool :=
  decide (i < text.length) && isWordChar (text.getD i ' ')

/-- The regex `\b` word boundary at position `i` (between `text[i-1]` and
`text[i]`): exactly one side is a word character. -/
def boundaryAt (text : Str) (i : Nat) : Bool :=
  (if i = 0 then false else wordAt text (i - 1)) != wordAt text i

/-- Whether the pattern `\b<term>\b` (with `term` literal, as produced by
`re.escape`) matches `text` at position `i`. -/
def matchAt (text term : Str) (i : Nat) : Bool :=
  boundaryAt text i && boundaryAt text (i + term.length) &&
    ((text.drop i).take term.length == term)

/-- The scan of `re.findall`: try each position left to right, skip over a
non-empty match, advance by one after an empty match.  `fuel` only bounds the
recursion and is always called with `text.length + 1`, enough for every
position `0..text.length`. -/
def countMatchesAux (text term : Str) : Nat → Nat → Nat
  | 0, _ => 0
  | fuel + 1, i =>
    if i ≤ text.length then
      if matchAt text term i then
        1 + countMatchesAux text term fuel (i + max term.length 1)
      else countMatchesAux text term fuel (i + 1)
    else 0

/-- Count `len(re.findall(rf"\b{re.escape(term)}\b", text))`: the number of
non-overlapping whole-word occurrences of the literal `term` in `text`. -/
def re_findall_count (term text : Str) : Nat :=
  countMatchesAux text term (text.length + 1) 0

/-- Python `text.split()`: whitespace-delimited tokens, empties dropped. -/
def pySplitWsAux : Str → Str → List Str
  | [], cur => if cur = [] then [] else [cur.reverse]
  | c :: s, cur =>
    if c.isWhitespace then
      if cur = [] then pySplitWsAux s [] else cur.reverse :: pySplitWsAux s []
    else pySplitWsAux s (c :: cur)

/-- Python `text.split()`. -/
def pySplitWs (s : Str) : List Str := pySplitWsAux s []

/-- The result of `analyze_content`: `{"word_count": ..., "matches": ...}`.
The Python dict `matches`, keyed by the original term strings, is modelled as
the insertion-ordered association list `matchCounts` (duplicate identical
terms would overwrite one another with the same value in Python). -/
structure Analysis where
  word_count : Nat
  matchCounts : List (Str × Nat)
deriving DecidableEq

/-- Function `analyze_content` from src/tools/analyzer.py, taking as input the visible
page text already extracted by the markup-parser collaborator
(`soup.get_text(separator=" ", strip=True)` after dropping
script/style/noscript): lower-case it, count whitespace tokens, and for each
term count whole-word regex matches of the lower-cased term, keyed by the
original term. -/
def analyze_content (page_text : Str) (search_terms : List Str) : Analysis :=
  let text := pyLower page_text
  ⟨(pySplitWs text).length,
    search_terms.map fun term => (term, re_findall_count (pyLower term) text)⟩

/-- The body of the `for tag in a_tags` loop of `extract_links`, folded over
the anchor hrefs supplied by the markup-parser collaborator.  Python's
`links` set is modelled as an insertion-ordered duplicate-free list (Python
set iteration order is unspecified; none of the proved claims depends on the
order). -/
def extractLinksGo (base_url allowed_netloc : Str) :
    List Str → List Str → Except PyError (List Str)
  | [], links => .ok links
  | href0 :: rest, links =>
    let href := pyStrip href0
    if ¬is_probably_web_link href then extractLinksGo base_url allowed_netloc rest links
    else do
      let joined ← urljoin base_url href true
      let full_url ← normalize_url joined
      let parsed ← urlparse full_url [] true
      if ¬(parsed.scheme = "http".data ∨ parsed.scheme = "https".data) then
        extractLinksGo base_url allowed_netloc rest links
      else if same_site parsed.netloc allowed_netloc then
        extractLinksGo base_url allowed_netloc rest
          (if full_url ∈ links then links else links ++ [full_url])
      else extractLinksGo base_url allowed_netloc rest links

/-- Function `extract_links` from src/tools/analyzer.py, with the BeautifulSoup call
replaced by the list of raw href attribute values it yields. -/
def extract_links (anchor_hrefs : List Str) (base_url allowed_netloc : Str) :
    Except PyError (List Str) :=
  extractLinksGo base_url allowed_netloc anchor_hrefs []

/-- One page record of the final report: `{"url": url, **analysis}`. -/
structure PageRecord where
  url : Str
  word_count : Nat
  matchCounts : List (Str × Nat)
deriving DecidableEq

/-- What a finished crawl exposes: the report (`results`, the only value the
Python function returns) plus the final visited set and the number of
`fetch_page` calls, recorded so the spec's budget claims can be stated. -/
structure CrawlOutcome where
  results : List PageRecord
  visited : List Str
  fetch_attempts : Nat
deriving DecidableEq

/-- The external collaborators of the crawl (spec section 6): the HTTP
transport, the codec registry, and the markup parser (anchor hrefs and
visible text). -/
structure Collaborators where
  net : Str → Option HttpResponse
  decodeEnc : Str → List Nat → Option Str
  decodeUtf8Replace : List Nat → Str
  anchorHrefs : Str → List Str
  pageText : Str → Str

/-- The `for link in extract_links(...)` loop: append each link that is in
neither the visited set nor the queue. -/
def enqueueLinks (visited : List Str) (queue : List Str) : List Str → List Str
  | [] => queue
  | l :: ls =>
    enqueueLinks visited
      (if l ∉ visited ∧ l ∉ queue then queue ++ [l] else queue) ls

/-- The `while queue and len(visited) < max_pages` loop of `crawl`.  Python's
visited set is a duplicate-free list (membership is checked before every
cons, so its length is the set's size). -/
def crawlLoop (C : Collaborators) (search_terms : List Str) (max_pages : Nat)
    (allowed_netloc : Str) (visited : List Str) (queue : List Str)
    (results : List PageRecord) (attempts : Nat) : Except PyError CrawlOutcome :=
  match queue with
  | [] => .ok ⟨results, visited, attempts⟩
  | u :: rest =>
    if hbudget : visited.length < max_pages then
      match normalize_url u with
      | .error e => .error e
      | .ok url =>
        if url ∈ visited then
          crawlLoop C search_terms max_pages allowed_netloc visited rest results
            attempts
        else
          match fetch_page C.decodeEnc C.decodeUtf8Replace (C.net url) with
          | none =>
            crawlLoop C search_terms max_pages allowed_netloc (url :: visited)
              rest results (attempts + 1)
          | some html =>
            if html = [] then
              crawlLoop C search_terms max_pages allowed_netloc (url :: visited)
                rest results (attempts + 1)
            else
              let analysis := analyze_content (C.pageText html) search_terms
              match extract_links (C.anchorHrefs html) url allowed_netloc with
              | .error e => .error e
              | .ok links =>
                crawlLoop C search_terms max_pages allowed_netloc
                  (url :: visited) (enqueueLinks (url :: visited) rest links)
                  (results ++ [⟨url, analysis.word_count, analysis.matchCounts⟩])
                  (attempts + 1)
    else .ok ⟨results, visited, attempts⟩
termination_by (max_pages - visited.length, queue.length)
decreasing_by
all_goals simp only [List.length_cons]
all_goals first
  | exact Prod.Lex.right _ (Nat.lt_succ_self _)
  | exact Prod.Lex.left _ _ (by omega)

/-- Function `crawl` from src/tools/analyzer.py: normalize and validate the seed, then
run the frontier loop starting from `[start_url]` with an empty visited set. -/
def crawl (C : Collaborators) (start_url0 : Str) (search_terms : List Str)
    (max_pages : Nat) : Except PyError CrawlOutcome := do
  let start_url ← normalize_url start_url0
  let start_parsed ← urlparse start_url [] true
  if ¬(start_parsed.scheme = "http".data ∨ start_parsed.scheme = "https".data) ∨
      start_parsed.netloc = [] then
    throw (.valueError ("Invalid start_url: " ++ String.mk start_url))
  else
    crawlLoop C search_terms max_pages start_parsed.netloc [] [start_url] [] 0

/-- Decidable equality of `Except`, so concrete runs can be checked by
`decide`. -/
instance {ε α : Type} [DecidableEq ε] [DecidableEq α] : DecidableEq (Except ε α) := fun
  | .error e, .error f =>
    match decEq e f with
    | isTrue h => isTrue (h ▸ rfl)
    | isFalse h => isFalse fun hh => h (by cases hh; rfl)
  | .error _, .ok _ => isFalse fun hh => by cases hh
  | .ok _, .error _ => isFalse fun hh => by cases hh
  | .ok a, .ok b =>
    match decEq a b with
    | isTrue h => isTrue (h ▸ rfl)
    | isFalse h => isFalse fun hh => h (by cases hh; rfl)

/-- The trailing-slash strip that `normalize_url` applies to the path of an
absolute URL with a nonempty host. -/
def stripPath (p : Str) : Str :=
  if ¬(p = [] ∨ p = ['/']) ∧ p.getLast? = some '/' then p.dropLast else p

/-- The canonical host form used by `same_site`: lower-case, then strip one
leading `www.` label. -/
def wwwStripped (h : Str) : Str :=
  if "www.".data.isPrefixOf (pyLower h) then (pyLower h).drop 4 else pyLower h

/-- Whether `crawl` rejects the seed at validation: normalization succeeds
but the normalized seed has a scheme outside http/https or an empty netloc. -/
def seed_rejected (seed : Str) : Bool :=
  match normalize_url seed with
  | .error _ => false
  | .ok r =>
    match urlparse r [] true with
    | .error _ => false
    | .ok p =>
      decide (¬(p.scheme = "http".data ∨ p.scheme = "https".data) ∨ p.netloc = [])

/-- The collaborator bundle whose transport always fails; used by concrete
runs below. -/
def nullCollaborators : Collaborators :=
  ⟨fun _ => none, fun _ _ => none, fun _ => [], fun _ => [], fun _ => []⟩

/-- Transport oracle for the continue-after-failure demonstration: only
`http://a.com/p2` answers (one HTML byte); every other URL fails. -/
def demoNet : Str → Option HttpResponse := fun u =>
  if u = "http://a.com/p2".data then
    some ⟨true, some "text/html".data, [[104]], none⟩
  else none

/-- Collaborators for the continue-after-failure demonstration. -/
def demoCollab : Collaborators :=
  ⟨demoNet, fun _ _ => some "hello".data, fun _ => [],
   fun _ => [], fun _ => "hello world".data⟩

/-- Collaborators whose fetch succeeds with an empty decoded body. -/
def emptyBodyCollab : Collaborators :=
  ⟨fun _ => some ⟨true, some "text/html".data, [], none⟩,
   fun _ _ => some [], fun _ => [], fun _ => [], fun _ => []⟩

theorem exceptOkBind {ε α β : Type} (a : α) (f : α → Except ε β) :
    (Except.ok a : Except ε α).bind f = f a := rfl

theorem exceptErrBind {ε α β : Type} (e : ε) (f : α → Except ε β) :
    (Except.error e : Except ε α).bind f = .error e := rfl

theorem pyLowerChar_eq_or_lower (c : Char) :
    pyLowerChar c = c ∨ pyLowerChar c ∈ "abcdefghijklmnopqrstuvwxyz".data := by
  unfold pyLowerChar
  split <;> first
    | exact Or.inl rfl
    | exact Or.inr (by decide)

theorem pyLowerChar_idem (c : Char) :
    pyLowerChar (pyLowerChar c) = pyLowerChar c := by
  rcases pyLowerChar_eq_or_lower c with h | h
  · rw [h, h]
  · have : ∀ d ∈ "abcdefghijklmnopqrstuvwxyz".data, pyLowerChar d = d := by decide
    rw [this _ h]

theorem pyLower_idem (s : Str) : pyLower (pyLower s) = pyLower s := by
  simp only [pyLower, List.map_map]
  exact List.map_congr_left fun c _ => pyLowerChar_idem c

theorem pyLower_length (s : Str) : (pyLower s).length = s.length :=
  List.length_map s pyLowerChar

theorem pyLower_ne_nil {s : Str} (h : s ≠ []) : pyLower s ≠ [] := by
  intro hh
  exact h (List.map_eq_nil_iff.mp hh)

theorem pyLowerChar_isSchemeChar {c : Char} (h : isSchemeChar c = true) :
    isSchemeChar (pyLowerChar c) = true := by
  rcases pyLowerChar_eq_or_lower c with h2 | h2
  · rw [h2]; exact h
  · have : ∀ d ∈ "abcdefghijklmnopqrstuvwxyz".data, isSchemeChar d = true := by decide
    exact this _ h2

theorem pyLowerChar_not_delim {c d : Char}
    (hd : d ∉ "abcdefghijklmnopqrstuvwxyz".data) (h : c ≠ d) :
    pyLowerChar c ≠ d := by
  rcases pyLowerChar_eq_or_lower c with h2 | h2
  · rw [h2]; exact h
  · intro hh; exact hd (hh ▸ h2)

theorem not_mem_pyLower {d : Char} {s : Str}
    (hd : d ∉ "abcdefghijklmnopqrstuvwxyz".data) (h : d ∉ s) :
    d ∉ pyLower s := by
  intro hh
  rcases List.mem_map.mp hh with ⟨c, hc, hcd⟩
  exact pyLowerChar_not_delim hd (fun hcd2 => h (hcd2 ▸ hc)) hcd

theorem findCharIdx_eq_none {s : Str} {c : Char} (h : c ∉ s) :
    findCharIdx s c = none := by
  induction s with
  | nil => rfl
  | cons a t ih =>
    simp only [List.mem_cons, not_or] at h
    show (if a = c then some 0 else (findCharIdx t c).map (· + 1)) = none
    rw [if_neg (fun hh => h.1 hh.symm), ih h.2]
    rfl

theorem findCharIdx_append_cons {s : Str} {c : Char} (t : Str) (h : c ∉ s) :
    findCharIdx (s ++ c :: t) c = some s.length := by
  induction s with
  | nil => simp [findCharIdx]
  | cons a u ih =>
    simp only [List.mem_cons, not_or] at h
    show (if a = c then some 0 else (findCharIdx (u ++ c :: t) c).map (· + 1)) =
      some (a :: u).length
    rw [if_neg (fun hh => h.1 hh.symm), ih h.2]
    simp

theorem findCharIdx_append_of_not_mem {s : Str} {c : Char} (t : Str) (h : c ∉ s) :
    findCharIdx (s ++ t) c = (findCharIdx t c).map (· + s.length) := by
  induction s with
  | nil => simp
  | cons a u ih =>
    simp only [List.mem_cons, not_or] at h
    show (if a = c then some 0 else (findCharIdx (u ++ t) c).map (· + 1)) = _
    rw [if_neg (fun hh => h.1 hh.symm), ih h.2]
    cases findCharIdx t c with
    | none => rfl
    | some j => simp; omega

theorem findCharIdx_le_length {s : Str} {c : Char} {i : Nat}
    (h : findCharIdx s c = some i) : i < s.length := by
  induction s generalizing i with
  | nil => exact Option.noConfusion h
  | cons a u ih =>
    have h2 : (if a = c then some 0 else (findCharIdx u c).map (· + 1)) = some i := h
    by_cases ha : a = c
    · rw [if_pos ha] at h2
      cases h2
      simp
    · rw [if_neg ha] at h2
      cases hu : findCharIdx u c with
      | none => rw [hu] at h2; cases h2
      | some j =>
        rw [hu] at h2
        simp only [Option.map_some'] at h2
        cases h2
        have := ih hu
        simp only [List.length_cons]
        omega

theorem findCharIdx_cons_pos {a : Char} {s : Str} {c : Char} {i : Nat}
    (hne : a ≠ c) (h : findCharIdx (a :: s) c = some i) : 1 ≤ i := by
  have h2 : (if a = c then some 0 else (findCharIdx s c).map (· + 1)) = some i := h
  rw [if_neg hne] at h2
  cases hs : findCharIdx s c with
  | none => rw [hs] at h2; cases h2
  | some j => rw [hs] at h2; simp only [Option.map_some', Option.some.injEq] at h2; omega

theorem splitnetloc_abs {host path : Str}
    (h1 : '/' ∉ host) (h2 : '?' ∉ host) (h3 : '#' ∉ host)
    (hp : path = [] ∨ path.take 1 = ['/']) :
    splitnetloc ('/' :: '/' :: (host ++ path)) 2 = (host, path) := by
  have hdrop : ('/' :: '/' :: (host ++ path)).drop 2 = host ++ path := rfl
  rcases hp with hp | hp
  · subst hp
    have e : ∀ c : Char, c ∉ host →
        findCharFrom ('/' :: '/' :: (host ++ [])) c 2 = none := by
      intro c hc
      simp only [findCharFrom, hdrop]
      rw [List.append_nil, findCharIdx_eq_none hc]
      rfl
    simp only [splitnetloc, e '/' h1, e '?' h2, e '#' h3, Option.getD_none, min_self]
    rw [hdrop, Prod.mk.injEq]
    refine ⟨?_, ?_⟩
    · have : ('/' :: '/' :: (host ++ [])).length - 2 = (host ++ []).length := by
        simp
      rw [this, List.take_length]
      simp
    · rw [List.drop_length]
  · match path, hp with
    | p0 :: p, hp =>
      have hp0 : p0 = '/' := by
        simp only [List.take, List.cons.injEq] at hp
        exact hp.1
      subst hp0
      have e1 : findCharFrom ('/' :: '/' :: (host ++ '/' :: p)) '/' 2 =
          some (host.length + 2) := by
        simp only [findCharFrom, hdrop, findCharIdx_append_cons p h1]
        rfl
      have e2 : ∀ c : Char, c ∉ host → c ≠ '/' →
          ((findCharFrom ('/' :: '/' :: (host ++ '/' :: p)) c 2).getD
            ('/' :: '/' :: (host ++ '/' :: p)).length) ≥ host.length + 2 := by
        intro c hc hcs
        simp only [findCharFrom, hdrop, findCharIdx_append_of_not_mem _ hc]
        cases hfp : findCharIdx ('/' :: p) c with
        | none => simp
        | some j => simp
      have e2q := e2 '?' h2 (by decide)
      have e2h := e2 '#' h3 (by decide)
      simp only [splitnetloc, e1, Option.getD_some]
      have hmin : min (host.length + 2)
          (min ((findCharFrom ('/' :: '/' :: (host ++ '/' :: p)) '?' 2).getD
              ('/' :: '/' :: (host ++ '/' :: p)).length)
            ((findCharFrom ('/' :: '/' :: (host ++ '/' :: p)) '#' 2).getD
              ('/' :: '/' :: (host ++ '/' :: p)).length)) = host.length + 2 := by
        omega
      rw [hmin, hdrop, Prod.mk.injEq]
      refine ⟨?_, ?_⟩
      · have : host.length + 2 - 2 = host.length := by omega
        rw [this, List.take_left]
      · show ('/' :: '/' :: (host ++ '/' :: p)).drop (host.length + 2) = '/' :: p
        have : ('/' :: '/' :: (host ++ '/' :: p)).drop (host.length + 2) =
            (host ++ '/' :: p).drop host.length := by
          simp [List.drop]
        rw [this, List.drop_left]

theorem schemeChars_no_colon {sch : Str} (hs2 : sch.all isSchemeChar = true) :
    ':' ∉ sch := by
  intro hmem
  have := List.all_eq_true.mp hs2 _ hmem
  exact absurd this (by decide)

theorem schemeChars_no_hash {sch : Str} (hs2 : sch.all isSchemeChar = true) :
    '#' ∉ sch := by
  intro hmem
  have := List.all_eq_true.mp hs2 _ hmem
  exact absurd this (by decide)

theorem urlsplit_abs {sch host path : Str} (ds : Str) (af : Bool)
    (hs1 : sch ≠ []) (hs2 : sch.all isSchemeChar = true)
    (hh2 : '/' ∉ host) (hh3 : '?' ∉ host) (hh4 : '#' ∉ host)
    (hh5 : '[' ∉ host) (hh6 : ']' ∉ host)
    (hp1 : path = [] ∨ path.take 1 = ['/'])
    (hp2 : '?' ∉ path) (hp3 : '#' ∉ path) :
    urlsplit (sch ++ ':' :: '/' :: '/' :: (host ++ path)) ds af =
      .ok ⟨pyLower sch, host, path, [], []⟩ := by
  have hfind : findCharIdx (sch ++ ':' :: '/' :: '/' :: (host ++ path)) ':' =
      some sch.length :=
    findCharIdx_append_cons _ (schemeChars_no_colon hs2)
  have htake : (sch ++ ':' :: '/' :: '/' :: (host ++ path)).take sch.length = sch :=
    List.take_left sch _
  have hdrop : (sch ++ ':' :: '/' :: '/' :: (host ++ path)).drop (sch.length + 1) =
      '/' :: '/' :: (host ++ path) := by
    rw [List.append_cons sch ':' ('/' :: '/' :: (host ++ path))]
    have : sch.length + 1 = (sch ++ [':']).length := by simp
    rw [this, List.drop_left]
  have h0 : 0 < sch.length := List.length_pos.mpr hs1
  have htake2 : ('/' :: '/' :: (host ++ path)).take 2 = ['/', '/'] := rfl
  simp only [urlsplit, hfind, htake, hdrop, h0, hs2, and_self, if_true, htake2,
    splitnetloc_abs hh2 hh3 hh4 hp1, hh5, hh6, hp2, hp3, and_false, false_and,
    and_true, true_and, false_or, or_false, if_false, not_false_iff]

theorem urlparse_abs {sch host path : Str} (ds : Str) (af : Bool)
    (hs1 : sch ≠ []) (hs2 : sch.all isSchemeChar = true)
    (hh2 : '/' ∉ host) (hh3 : '?' ∉ host) (hh4 : '#' ∉ host)
    (hh5 : '[' ∉ host) (hh6 : ']' ∉ host)
    (hp1 : path = [] ∨ path.take 1 = ['/'])
    (hp2 : '?' ∉ path) (hp3 : '#' ∉ path) (hp4 : ';' ∉ path) :
    urlparse (sch ++ ':' :: '/' :: '/' :: (host ++ path)) ds af =
      .ok ⟨pyLower sch, host, path, [], [], []⟩ := by
  simp only [urlparse, urlsplit_abs ds af hs1 hs2 hh2 hh3 hh4 hh5 hh6 hp1 hp2 hp3,
    Except.map, hp4, and_false, if_false]

theorem urldefrag_of_not_mem {u : Str} (h : '#' ∉ u) : urldefrag u = .ok (u, []) := by
  simp [urldefrag, h]

theorem hash_not_mem_abs {sch host path : Str}
    (hs2 : sch.all isSchemeChar = true) (hh4 : '#' ∉ host) (hp3 : '#' ∉ path) :
    '#' ∉ sch ++ ':' :: '/' :: '/' :: (host ++ path) := by
  intro hmem
  simp only [List.mem_append, List.mem_cons] at hmem
  rcases hmem with h | h | h | h | h | h
  · exact schemeChars_no_hash hs2 h
  · exact absurd h (by decide)
  · exact absurd h (by decide)
  · exact absurd h (by decide)
  · exact hh4 h
  · exact hp3 h

theorem urlunparse_abs {sch host path : Str} (hs1 : sch ≠ []) (hh1 : host ≠ [])
    (hp1 : path = [] ∨ path.take 1 = ['/']) :
    urlunparse ⟨sch, host, path, [], [], []⟩ =
      sch ++ ':' :: '/' :: '/' :: (host ++ path) := by
  rcases hp1 with hp | hp
  · subst hp
    simp [urlunparse, urlunsplit, hs1, hh1]
  · match path, hp with
    | p0 :: p, hp =>
      have hp0 : p0 = '/' := by
        simp only [List.take, List.cons.injEq] at hp
        exact hp.1
      subst hp0
      simp [urlunparse, urlunsplit, hs1, hh1]

theorem pyLower_all_schemeChar {sch : Str} (hs2 : sch.all isSchemeChar = true) :
    (pyLower sch).all isSchemeChar = true := by
  rw [List.all_eq_true] at hs2 ⊢
  intro c hc
  rcases List.mem_map.mp hc with ⟨d, hd, hdc⟩
  exact hdc ▸ pyLowerChar_isSchemeChar (hs2 d hd)

theorem getLast?_cons_ne {a : Char} {l : Str} (h : l ≠ []) :
    (a :: l).getLast? = l.getLast? := by
  cases l with
  | nil => exact absurd rfl h
  | cons b t => exact List.getLast?_cons_cons

theorem rebuilt_getLast {lsch lhost path : Str} (hh1 : lhost ≠ []) (hp : path ≠ []) :
    (lsch ++ ':' :: '/' :: '/' :: (lhost ++ path)).getLast? = path.getLast? := by
  rw [List.getLast?_append_of_ne_nil _ (by simp),
    getLast?_cons_ne (by simp), getLast?_cons_ne (by simp),
    getLast?_cons_ne (by simp [hp]), List.getLast?_append_of_ne_nil _ hp]

theorem rebuilt_dropLast {lsch lhost path : Str} (hp : path ≠ []) :
    (lsch ++ ':' :: '/' :: '/' :: (lhost ++ path)).dropLast =
      lsch ++ ':' :: '/' :: '/' :: (lhost ++ path.dropLast) := by
  rw [List.dropLast_append_of_ne_nil _ (by simp),
    List.dropLast_cons_of_ne_nil (by simp), List.dropLast_cons_of_ne_nil (by simp),
    List.dropLast_cons_of_ne_nil (by simp [hp]), List.dropLast_append_of_ne_nil _ hp]

theorem normalize_url_abs {sch host path : Str}
    (hs1 : sch ≠ []) (hs2 : sch.all isSchemeChar = true)
    (hh1 : host ≠ [])
    (hh2 : '/' ∉ host) (hh3 : '?' ∉ host) (hh4 : '#' ∉ host)
    (hh5 : '[' ∉ host) (hh6 : ']' ∉ host)
    (hp1 : path = [] ∨ path.take 1 = ['/'])
    (hp2 : '?' ∉ path) (hp3 : '#' ∉ path) (hp4 : ';' ∉ path) :
    normalize_url (sch ++ ':' :: '/' :: '/' :: (host ++ path)) =
      .ok (pyLower sch ++ ':' :: '/' :: '/' :: (pyLower host ++ stripPath path)) := by
  have hls1 : pyLower sch ≠ [] := pyLower_ne_nil hs1
  have hls2 : (pyLower sch).all isSchemeChar = true := pyLower_all_schemeChar hs2
  have hlh1 : pyLower host ≠ [] := pyLower_ne_nil hh1
  have hlh2 : '/' ∉ pyLower host := not_mem_pyLower (by decide) hh2
  have hlh3 : '?' ∉ pyLower host := not_mem_pyLower (by decide) hh3
  have hlh4 : '#' ∉ pyLower host := not_mem_pyLower (by decide) hh4
  have hlh5 : '[' ∉ pyLower host := not_mem_pyLower (by decide) hh5
  have hlh6 : ']' ∉ pyLower host := not_mem_pyLower (by decide) hh6
  have hdefrag := urldefrag_of_not_mem (hash_not_mem_abs hs2 hh4 hp3)
  have hparse := urlparse_abs ([] : Str) true hs1 hs2 hh2 hh3 hh4 hh5 hh6 hp1 hp2 hp3 hp4
  have hrebuilt : urlunparse ⟨pyLower (pyLower sch), pyLower host, path, [], [], []⟩ =
      pyLower sch ++ ':' :: '/' :: '/' :: (pyLower host ++ path) := by
    rw [pyLower_idem]
    exact urlunparse_abs hls1 hlh1 hp1
  have hparse2 := urlparse_abs ([] : Str) true hls1 hls2 hlh2 hlh3 hlh4 hlh5 hlh6 hp1 hp2 hp3 hp4
  rw [pyLower_idem] at hparse2
  simp only [normalize_url, bind, hdefrag, exceptOkBind, hparse, hrebuilt, hparse2]
  rcases hp1 with hp | hp
  · subst hp
    rw [if_neg (by simp)]
    rfl
  · have hpne : path ≠ [] := by
      intro hh
      rw [hh] at hp
      exact absurd hp (by decide)
    rw [rebuilt_getLast hlh1 hpne]
    by_cases hstrip : ¬(path = [] ∨ path = ['/']) ∧ path.getLast? = some '/'
    · rw [if_pos hstrip, rebuilt_dropLast hpne]
      have : stripPath path = path.dropLast := by
        rw [stripPath, if_pos hstrip]
      rw [this]
      rfl
    · rw [if_neg hstrip]
      have : stripPath path = path := by
        rw [stripPath, if_neg hstrip]
      rw [this]
      rfl

theorem eq_dropLast_append_of_getLast {l : Str} {a : Char} (h : l.getLast? = some a) :
    l = l.dropLast ++ [a] := by
  have h2 : l ≠ [] := by rintro rfl; exact Option.noConfusion h
  have h3 := List.dropLast_append_getLast h2
  rw [List.getLast?_eq_getLast l h2, Option.some.injEq] at h
  conv_lhs => rw [← h3, h]

theorem stripPath_shape {path : Str} (hp1 : path = [] ∨ path.take 1 = ['/']) :
    stripPath path = [] ∨ (stripPath path).take 1 = ['/'] := by
  rw [stripPath]
  split
  case isTrue h =>
    rcases hp1 with hp | hp
    · exact absurd (Or.inl hp) h.1
    · match path, hp with
      | p0 :: p, hp =>
        have hp0 : p0 = '/' := by
          simp only [List.take, List.cons.injEq] at hp
          exact hp.1
        subst hp0
        cases hpn : p with
        | nil => exact absurd (Or.inr (by rw [hpn])) h.1
        | cons b t =>
          right
          rw [List.dropLast_cons_of_ne_nil (by simp)]
          rfl
  case isFalse h => exact hp1

theorem stripPath_not_mem {c : Char} {path : Str} (h : c ∉ path) :
    c ∉ stripPath path := by
  rw [stripPath]
  split
  · exact fun hh => h (List.dropLast_subset path hh)
  · exact h

theorem stripPath_idem {path : Str} (hns : ¬List.IsSuffix ['/', '/'] path) :
    stripPath (stripPath path) = stripPath path := by
  by_cases h : ¬(path = [] ∨ path = ['/']) ∧ path.getLast? = some '/'
  · have h1 : stripPath path = path.dropLast := by rw [stripPath, if_pos h]
    rw [h1, stripPath, if_neg ?_]
    rintro ⟨hne, hl⟩
    have e1 : path = path.dropLast ++ ['/'] := eq_dropLast_append_of_getLast h.2
    have e2 : path.dropLast = path.dropLast.dropLast ++ ['/'] :=
      eq_dropLast_append_of_getLast hl
    refine hns ⟨path.dropLast.dropLast, ?_⟩
    calc path.dropLast.dropLast ++ ['/', '/']
        = (path.dropLast.dropLast ++ ['/']) ++ ['/'] := by simp
      _ = path.dropLast ++ ['/'] := by rw [← e2]
      _ = path := e1.symm
  · have h1 : stripPath path = path := by rw [stripPath, if_neg h]
    rw [h1, h1]

/-- C2 counterexample: `normalize_url` is not idempotent and can raise.
`normalize("http://a.com/x//")` yields `"http://a.com/x/"` (one trailing
slash stripped), but normalizing again strips a second slash, so
`normalize(normalize(x)) ≠ normalize(x)`; and `normalize("http://[")`
raises `ValueError("Invalid IPv6 URL")` from `urlsplit`. -/
theorem C2_counterexample :
    normalize_url "http://a.com/x//".data = .ok "http://a.com/x/".data ∧
    normalize_url "http://a.com/x/".data = .ok "http://a.com/x".data ∧
    "http://a.com/x/".data ≠ "http://a.com/x".data ∧
    normalize_url "http://[".data = .error (.valueError "Invalid IPv6 URL") := by
  refine ⟨by decide, by decide, by decide, by decide⟩

/-- C2 (amended): `normalize_url` can raise `ValueError` (unbalanced bracket
in the authority) and is not idempotent on every string, but it is idempotent
on every absolute URL `scheme://host<path>` in which the scheme is a nonempty
run of scheme characters, the host is nonempty and free of the delimiters
`/ ? # [ ]`, and the path is empty or slash-led, contains none of `? # ;`,
and does not end in a double slash. -/
theorem C2_normalize_idempotent_amended {sch host path : Str}
    (hs1 : sch ≠ []) (hs2 : sch.all isSchemeChar = true)
    (hh1 : host ≠ []) (hh2 : '/' ∉ host) (hh3 : '?' ∉ host) (hh4 : '#' ∉ host)
    (hh5 : '[' ∉ host) (hh6 : ']' ∉ host)
    (hp1 : path = [] ∨ path.take 1 = ['/'])
    (hp2 : '?' ∉ path) (hp3 : '#' ∉ path) (hp4 : ';' ∉ path)
    (hp5 : ¬List.IsSuffix ['/', '/'] path) :
    ∃ r, normalize_url (sch ++ ':' :: '/' :: '/' :: (host ++ path)) = .ok r ∧
      normalize_url r = .ok r := by
  refine ⟨_, normalize_url_abs hs1 hs2 hh1 hh2 hh3 hh4 hh5 hh6 hp1 hp2 hp3 hp4, ?_⟩
  have h2 := normalize_url_abs (pyLower_ne_nil hs1) (pyLower_all_schemeChar hs2)
    (pyLower_ne_nil hh1) (not_mem_pyLower (by decide) hh2)
    (not_mem_pyLower (by decide) hh3) (not_mem_pyLower (by decide) hh4)
    (not_mem_pyLower (by decide) hh5) (not_mem_pyLower (by decide) hh6)
    (stripPath_shape hp1) (stripPath_not_mem hp2) (stripPath_not_mem hp3)
    (stripPath_not_mem hp4)
  rw [pyLower_idem, pyLower_idem, stripPath_idem hp5] at h2
  exact h2

/-- Witness for the amended C2 theorem at the concrete seed
`HTTP://Example.com/A/`. -/
theorem C2_witness :
    ∃ r, normalize_url ("HTTP".data ++ ':' :: '/' :: '/' ::
        ("Example.com".data ++ "/A/".data)) = .ok r ∧ normalize_url r = .ok r :=
  C2_normalize_idempotent_amended (by decide) (by decide) (by decide) (by decide)
    (by decide) (by decide) (by decide) (by decide) (Or.inr (by decide))
    (by decide) (by decide) (by decide) (by decide)

theorem isSuffixOf_iff_sfx (a b : Str) : a.isSuffixOf b = true ↔ a <:+ b := by
  unfold List.isSuffixOf
  rw [ List.isPrefixOf_iff_prefix]
  exact List.reverse_prefix

/-- C3 counterexample: the two root forms do NOT normalize to one canonical
value: `normalize("https://a.com") = "https://a.com"` (empty path) while
`normalize("https://a.com/") = "https://a.com/"` (root slash kept), and the
two results are different strings. -/
theorem C3_counterexample :
    normalize_url "https://a.com".data = .ok "https://a.com".data ∧
    normalize_url "https://a.com/".data = .ok "https://a.com/".data ∧
    normalize_url "https://a.com".data ≠ normalize_url "https://a.com/".data := by
  refine ⟨by decide, by decide, by decide⟩

/-- C3 (amended): the root trailing slash is indeed never stripped — for every
well-formed host, `scheme://host` and `scheme://host/` each normalize to
themselves (lower-cased) — but the empty-path root and the slash root remain
two distinct canonical forms rather than collapsing to one value. -/
theorem C3_root_amended {sch host : Str}
    (hs1 : sch ≠ []) (hs2 : sch.all isSchemeChar = true)
    (hh1 : host ≠ []) (hh2 : '/' ∉ host) (hh3 : '?' ∉ host) (hh4 : '#' ∉ host)
    (hh5 : '[' ∉ host) (hh6 : ']' ∉ host) :
    normalize_url (sch ++ ':' :: '/' :: '/' :: host) =
      .ok (pyLower sch ++ ':' :: '/' :: '/' :: pyLower host) ∧
    normalize_url (sch ++ ':' :: '/' :: '/' :: (host ++ ['/'])) =
      .ok (pyLower sch ++ ':' :: '/' :: '/' :: (pyLower host ++ ['/'])) ∧
    pyLower sch ++ ':' :: '/' :: '/' :: pyLower host ≠
      pyLower sch ++ ':' :: '/' :: '/' :: (pyLower host ++ ['/']) := by
  refine ⟨?_, ?_, ?_⟩
  · have h := @normalize_url_abs sch host [] hs1 hs2 hh1 hh2 hh3 hh4 hh5 hh6
      (Or.inl rfl) (by simp) (by simp) (by simp)
    simpa [stripPath] using h
  · have h := @normalize_url_abs sch host ['/'] hs1 hs2 hh1 hh2 hh3 hh4 hh5 hh6
      (Or.inr rfl) (by simp) (by simp) (by simp)
    simpa [stripPath] using h
  · intro h
    have := congrArg List.length h
    simp at this

/-- Witness for the amended C3 theorem at the spec's own example
`https://a.com` versus `https://a.com/`. -/
theorem C3_witness :
    normalize_url ("https".data ++ ':' :: '/' :: '/' :: "a.com".data) =
      .ok (pyLower "https".data ++ ':' :: '/' :: '/' :: pyLower "a.com".data) ∧
    normalize_url ("https".data ++ ':' :: '/' :: '/' :: ("a.com".data ++ ['/'])) =
      .ok (pyLower "https".data ++ ':' :: '/' :: '/' ::
        (pyLower "a.com".data ++ ['/'])) ∧
    pyLower "https".data ++ ':' :: '/' :: '/' :: pyLower "a.com".data ≠
      pyLower "https".data ++ ':' :: '/' :: '/' :: (pyLower "a.com".data ++ ['/']) :=
  C3_root_amended (by decide) (by decide) (by decide) (by decide) (by decide)
    (by decide) (by decide) (by decide)

/-- C9 counterexample: `normalize_url` lower-cases the ENTIRE netloc, so the
userinfo `UserName` becomes `username` instead of being preserved, contrary
to the claim that only scheme and host are lower-cased. -/
theorem C9_counterexample :
    normalize_url "http://UserName@Example.com/Path".data =
      .ok "http://username@example.com/Path".data ∧
    normalize_url "http://UserName@Example.com/Path".data ≠
      .ok "http://UserName@example.com/Path".data := by
  refine ⟨by decide, by decide⟩

/-- C9 (amended): normalization lower-cases the scheme and the whole
authority component — userinfo and port text included — while the path keeps
its original case (up to the trailing-slash strip) and, as the concrete run
shows, query text keeps its case as well. -/
theorem C9_case_amended :
    (∀ sch netloc path : Str,
      sch ≠ [] → sch.all isSchemeChar = true →
      netloc ≠ [] → '/' ∉ netloc → '?' ∉ netloc → '#' ∉ netloc →
      '[' ∉ netloc → ']' ∉ netloc →
      (path = [] ∨ path.take 1 = ['/']) → '?' ∉ path → '#' ∉ path → ';' ∉ path →
      normalize_url (sch ++ ':' :: '/' :: '/' :: (netloc ++ path)) =
        .ok (pyLower sch ++ ':' :: '/' :: '/' :: (pyLower netloc ++ stripPath path))) ∧
    normalize_url "HTTP://User:Pw@Example.COM:8080/MiXeD?Q=Va".data =
      .ok "http://user:pw@example.com:8080/MiXeD?Q=Va".data := by
  refine ⟨?_, by decide⟩
  intro sch netloc path hs1 hs2 hh1 hh2 hh3 hh4 hh5 hh6 hp1 hp2 hp3 hp4
  exact normalize_url_abs hs1 hs2 hh1 hh2 hh3 hh4 hh5 hh6 hp1 hp2 hp3 hp4

/-- Witness for the amended C9 theorem: the general clause applied to
`http://UserName@Example.com/Path`. -/
theorem C9_witness :
    normalize_url ("http".data ++ ':' :: '/' :: '/' ::
        ("UserName@Example.com".data ++ "/Path".data)) =
      .ok (pyLower "http".data ++ ':' :: '/' :: '/' ::
        (pyLower "UserName@Example.com".data ++ stripPath "/Path".data)) :=
  C9_case_amended.1 "http".data "UserName@Example.com".data "/Path".data
    (by decide) (by decide) (by decide) (by decide) (by decide) (by decide)
    (by decide) (by decide) (Or.inr (by decide)) (by decide) (by decide) (by decide)

/-- C5: `same_site` accepts subdomain relationships with a dot boundary
(`blog.example.com` vs `example.com`) and rejects mere string suffixes
(`notexample.com` vs `example.com`); in general, after lower-casing and
stripping one leading `www.`, two hosts are same-site iff they are equal or
one is a dot-separated suffix of the other. -/
theorem C5_same_site_subdomain :
    same_site "blog.example.com".data "example.com".data = true ∧
    same_site "notexample.com".data "example.com".data = false ∧
    ∀ a b : Str, same_site a b = true ↔
      (wwwStripped a = wwwStripped b ∨
       ('.' :: wwwStripped b) <:+ wwwStripped a ∨
       ('.' :: wwwStripped a) <:+ wwwStripped b) := by
  refine ⟨by decide, by decide, ?_⟩
  intro a b
  simp only [same_site, wwwStripped, Bool.or_eq_true, beq_iff_eq, isSuffixOf_iff_sfx]
  exact or_assoc

/-- C6: `same_site` is symmetric in its two arguments. -/
theorem C6_same_site_symm : ∀ a b : Str, same_site a b = same_site b a := by
  intro a b
  refine Bool.eq_iff_iff.mpr ?_
  simp only [same_site, Bool.or_eq_true, beq_iff_eq, isSuffixOf_iff_sfx]
  constructor
  · rintro ((h | h) | h)
    · exact Or.inl (Or.inl h.symm)
    · exact Or.inr h
    · exact Or.inl (Or.inr h)
  · rintro ((h | h) | h)
    · exact Or.inl (Or.inl h.symm)
    · exact Or.inr h
    · exact Or.inl (Or.inr h)

/-- C4: the content scorer counts whole-word, non-overlapping matches — the
text `"database databases"` scores exactly 1 for the term `"database"` (the
occurrence inside `databases` is not counted) — and every count is keyed by
the term's original string, not its lower-cased form. -/
theorem C4_whole_word_scoring :
    analyze_content "database databases".data ["database".data] =
      ⟨2, [("database".data, 1)]⟩ ∧
    analyze_content "database databases".data ["DataBase".data] =
      ⟨2, [("DataBase".data, 1)]⟩ ∧
    ∀ (text : Str) (terms : List Str),
      (analyze_content text terms).matchCounts.map Prod.fst = terms := by
  refine ⟨by decide, by decide, ?_⟩
  intro text terms
  simp only [analyze_content, List.map_map]
  exact List.map_congr_left (fun t _ => rfl) |>.trans (List.map_id terms)

theorem crawlLoop_budget (C : Collaborators) (terms : List Str) (N : Nat)
    (allowed : Str) :
    ∀ visited queue results attempts,
      visited.length ≤ N →
      ∀ out, crawlLoop C terms N allowed visited queue results attempts = .ok out →
        out.visited.length ≤ N ∧
          out.fetch_attempts ≤ attempts + (N - visited.length) := by
  intro visited queue results attempts
  induction visited, queue, results, attempts using crawlLoop.induct C terms N allowed with
  | case1 visited results attempts =>
    intro hle out hok
    rw [crawlLoop.eq_def] at hok
    simp only at hok
    cases hok
    refine ⟨hle, ?_⟩
    show attempts ≤ attempts + (N - visited.length)
    omega
  | case2 visited results attempts r rs hlt e hnorm =>
    intro hle out hok
    rw [crawlLoop.eq_def] at hok
    simp only [dif_pos hlt, hnorm] at hok
    cases hok
  | case3 visited results attempts r rs hlt url hnorm hmem ih =>
    intro hle out hok
    rw [crawlLoop.eq_def] at hok
    simp only [dif_pos hlt, hnorm, if_pos hmem] at hok
    exact ih hle out hok
  | case4 visited results attempts r rs hlt url hnorm hmem hfetch ih =>
    intro hle out hok
    rw [crawlLoop.eq_def] at hok
    simp only [dif_pos hlt, hnorm, if_neg hmem, hfetch] at hok
    have h2 := ih (by simp [List.length_cons]; omega) out hok
    refine ⟨h2.1, ?_⟩
    have := h2.2
    simp only [List.length_cons] at this
    omega
  | case5 visited results attempts r rs hlt url hnorm hmem hfetch ih =>
    intro hle out hok
    rw [crawlLoop.eq_def] at hok
    simp [dif_pos hlt, hnorm, if_neg hmem, hfetch] at hok
    have h2 := ih (by simp [List.length_cons]; omega) out hok
    refine ⟨h2.1, ?_⟩
    have := h2.2
    simp only [List.length_cons] at this
    omega
  | case6 visited results attempts r rs hlt url hnorm hmem html hfetch hempty e hext =>
    intro hle out hok
    rw [crawlLoop.eq_def] at hok
    simp [dif_pos hlt, hnorm, if_neg hmem, hfetch, hempty, hext] at hok
  | case7 visited results attempts r rs hlt url hnorm hmem html hfetch hempty analysis links hext ih =>
    intro hle out hok
    rw [crawlLoop.eq_def] at hok
    simp [dif_pos hlt, hnorm, if_neg hmem, hfetch, hempty, hext] at hok
    have h2 := ih (by simp [List.length_cons]; omega) out hok
    refine ⟨h2.1, ?_⟩
    have := h2.2
    simp only [List.length_cons] at this
    omega
  | case8 visited results attempts r rs hlt =>
    intro hle out hok
    rw [crawlLoop.eq_def] at hok
    simp only [dif_neg hlt] at hok
    cases hok
    refine ⟨hle, ?_⟩
    show attempts ≤ attempts + (N - visited.length)
    omega

/-- C1: for every seed, term list and budget `N`, a crawl that returns adds
at most `N` entries to the visited set and makes at most `N` fetch attempts,
regardless of the collaborators (hence of frontier size).  The crawl always
halts: `crawlLoop` is total by well-founded recursion on
`(N - |visited|, |queue|)`, the loop variant of the Python `while`. -/
theorem C1_crawl_budget (C : Collaborators) (seed : Str) (terms : List Str)
    (N : Nat) (out : CrawlOutcome) (hok : crawl C seed terms N = .ok out) :
    out.visited.length ≤ N ∧ out.fetch_attempts ≤ N := by
  simp only [crawl, bind] at hok
  cases hn : normalize_url seed with
  | error e => rw [hn] at hok; cases hok
  | ok r =>
    rw [hn, exceptOkBind] at hok
    cases hp : urlparse r [] true with
    | error e => rw [hp] at hok; cases hok
    | ok p =>
      rw [hp, exceptOkBind] at hok
      split at hok
      · cases hok
      · have h := crawlLoop_budget C terms N p.netloc [] [r] [] 0 (by simp) out hok
        refine ⟨h.1, ?_⟩
        have := h.2
        omega

/-- Witness for C1: a concrete crawl (failing transport, budget 10) visits
exactly one page, makes one fetch attempt, and satisfies the budget. -/
theorem C1_witness :
    crawl nullCollaborators "http://a.com".data [] 10 =
      .ok ⟨[], ["http://a.com".data], 1⟩ ∧
    (⟨[], ["http://a.com".data], 1⟩ : CrawlOutcome).visited.length ≤ 10 ∧
    (⟨[], ["http://a.com".data], 1⟩ : CrawlOutcome).fetch_attempts ≤ 10 := by
  have h1 : normalize_url "http://a.com".data = .ok "http://a.com".data := by decide
  have h2 : urlparse "http://a.com".data [] true =
      .ok ⟨"http".data, "a.com".data, [], [], [], []⟩ := by decide
  have hok : crawl nullCollaborators "http://a.com".data [] 10 =
      .ok ⟨[], ["http://a.com".data], 1⟩ := by
    rw [crawl]
    simp only [h1, h2, bind, exceptOkBind]
    rw [if_neg (by decide)]
    rw [crawlLoop.eq_def]
    simp +decide [h1, nullCollaborators, fetch_page]
    rw [crawlLoop.eq_def]
  have h := C1_crawl_budget nullCollaborators "http://a.com".data [] 10
    ⟨[], ["http://a.com".data], 1⟩ hok
  exact ⟨hok, h.1, h.2⟩

theorem urlsplit_error_msg {u ds : Str} {af : Bool} {e : PyError}
    (h : urlsplit u ds af = .error e) : e = .valueError "Invalid IPv6 URL" := by
  simp only [urlsplit] at h
  rw [ite_eq_iff] at h
  rcases h with ⟨hc, h⟩ | ⟨hc, h⟩
  · exact (Except.error.inj h).symm
  · exact Except.noConfusion h

theorem urlparse_error_msg {u ds : Str} {af : Bool} {e : PyError}
    (h : urlparse u ds af = .error e) : e = .valueError "Invalid IPv6 URL" := by
  simp only [urlparse] at h
  cases hs : urlsplit u ds af with
  | error f => rw [hs] at h; cases h; exact urlsplit_error_msg hs
  | ok s => rw [hs] at h; cases h

theorem urldefrag_error_msg {u : Str} {e : PyError}
    (h : urldefrag u = .error e) : e = .valueError "Invalid IPv6 URL" := by
  simp only [urldefrag] at h
  split at h
  · cases hp : urlparse u [] true with
    | error f => rw [hp] at h; cases h; exact urlparse_error_msg hp
    | ok p => rw [hp] at h; cases h
  · cases h

theorem normalize_url_error_msg {u : Str} {e : PyError}
    (h : normalize_url u = .error e) : e = .valueError "Invalid IPv6 URL" := by
  simp only [normalize_url, bind] at h
  cases hd : urldefrag u with
  | error f => rw [hd] at h; cases h; exact urldefrag_error_msg hd
  | ok d =>
    rw [hd, exceptOkBind] at h
    cases hp : urlparse d.1 [] true with
    | error f => rw [hp] at h; cases h; exact urlparse_error_msg hp
    | ok p =>
      rw [hp, exceptOkBind] at h
      cases hp2 : urlparse (urlunparse ⟨pyLower p.scheme, pyLower p.netloc, p.path,
          p.params, p.query, p.fragment⟩) [] true with
      | error f => rw [hp2] at h; cases h; exact urlparse_error_msg hp2
      | ok p2 =>
        rw [hp2, exceptOkBind] at h
        split at h <;> cases h

theorem exceptBindErr {ε α β : Type} {x : Except ε α} {f : α → Except ε β} {e : ε}
    (h : x.bind f = .error e) : x = .error e ∨ ∃ a, x = .ok a ∧ f a = .error e := by
  cases x with
  | error g =>
    left
    have : (Except.error g : Except ε α).bind f = .error g := rfl
    rw [this] at h
    rw [Except.error.inj h]
  | ok a => exact Or.inr ⟨a, rfl, h⟩

theorem urljoin_error_msg {b u : Str} {af : Bool} {e : PyError}
    (h : urljoin b u af = .error e) : e = .valueError "Invalid IPv6 URL" := by
  simp only [urljoin, bind] at h
  rcases ite_eq_iff.mp h with ⟨_, h⟩ | ⟨_, h⟩
  · exact Except.noConfusion h
  rcases ite_eq_iff.mp h with ⟨_, h⟩ | ⟨_, h⟩
  · exact Except.noConfusion h
  rcases exceptBindErr h with h | ⟨bp, hbp, h⟩
  · exact urlparse_error_msg h
  rcases exceptBindErr h with h | ⟨up, hup, h⟩
  · exact urlparse_error_msg h
  rcases ite_eq_iff.mp h with ⟨_, h⟩ | ⟨_, h⟩
  · exact Except.noConfusion h
  rcases ite_eq_iff.mp h with ⟨_, h⟩ | ⟨_, h⟩
  · exact Except.noConfusion h
  rcases ite_eq_iff.mp h with ⟨_, h⟩ | ⟨_, h⟩
  · exact Except.noConfusion h
  · exact Except.noConfusion h

theorem extractLinksGo_error_msg {base allowed : Str} {e : PyError} :
    ∀ hrefs links, extractLinksGo base allowed hrefs links = .error e →
      e = .valueError "Invalid IPv6 URL" := by
  intro hrefs
  induction hrefs with
  | nil => intro links h; exact Except.noConfusion h
  | cons a rest ih =>
    intro links h
    simp only [extractLinksGo, bind] at h
    rcases ite_eq_iff.mp h with ⟨_, h⟩ | ⟨_, h⟩
    · exact ih _ h
    rcases exceptBindErr h with h | ⟨j, hj, h⟩
    · exact urljoin_error_msg h
    rcases exceptBindErr h with h | ⟨fu, hfu, h⟩
    · exact normalize_url_error_msg h
    rcases exceptBindErr h with h | ⟨pr, hpr, h⟩
    · exact urlparse_error_msg h
    rcases ite_eq_iff.mp h with ⟨_, h⟩ | ⟨_, h⟩
    · exact ih _ h
    rcases ite_eq_iff.mp h with ⟨_, h⟩ | ⟨_, h⟩
    · exact ih _ h
    · exact ih _ h

theorem extract_links_error_msg {hrefs : List Str} {base allowed : Str} {e : PyError}
    (h : extract_links hrefs base allowed = .error e) :
    e = .valueError "Invalid IPv6 URL" :=
  extractLinksGo_error_msg hrefs [] h

theorem crawlLoop_error_msg (C : Collaborators) (terms : List Str) (N : Nat)
    (allowed : Str) :
    ∀ visited queue results attempts e,
      crawlLoop C terms N allowed visited queue results attempts = .error e →
        e = .valueError "Invalid IPv6 URL" := by
  intro visited queue results attempts
  induction visited, queue, results, attempts using crawlLoop.induct C terms N allowed with
  | case1 visited results attempts =>
    intro e h
    rw [crawlLoop.eq_def] at h
    exact Except.noConfusion h
  | case2 visited results attempts r rs hlt f hnorm =>
    intro e h
    rw [crawlLoop.eq_def] at h
    simp only [dif_pos hlt, hnorm] at h
    rw [← Except.error.inj h]
    exact normalize_url_error_msg hnorm
  | case3 visited results attempts r rs hlt url hnorm hmem ih =>
    intro e h
    rw [crawlLoop.eq_def] at h
    simp only [dif_pos hlt, hnorm, if_pos hmem] at h
    exact ih e h
  | case4 visited results attempts r rs hlt url hnorm hmem hfetch ih =>
    intro e h
    rw [crawlLoop.eq_def] at h
    simp only [dif_pos hlt, hnorm, if_neg hmem, hfetch] at h
    exact ih e h
  | case5 visited results attempts r rs hlt url hnorm hmem hfetch ih =>
    intro e h
    rw [crawlLoop.eq_def] at h
    simp [dif_pos hlt, hnorm, if_neg hmem, hfetch] at h
    exact ih e h
  | case6 visited results attempts r rs hlt url hnorm hmem html hfetch hempty f hext =>
    intro e h
    rw [crawlLoop.eq_def] at h
    simp [dif_pos hlt, hnorm, if_neg hmem, hfetch, hempty, hext] at h
    rw [← h]
    exact extract_links_error_msg hext
  | case7 visited results attempts r rs hlt url hnorm hmem html hfetch hempty analysis links hext ih =>
    intro e h
    rw [crawlLoop.eq_def] at h
    simp [dif_pos hlt, hnorm, if_neg hmem, hfetch, hempty, hext] at h
    exact ih e h
  | case8 visited results attempts r rs hlt =>
    intro e h
    rw [crawlLoop.eq_def] at h
    simp only [dif_neg hlt] at h
    exact Except.noConfusion h

theorem invalid_seed_msg_ne (r : Str) :
    ("Invalid start_url: " ++ String.mk r) ≠ "Invalid IPv6 URL" := by
  intro h
  have h2 := congrArg String.length h
  rw [String.length_append] at h2
  have l1 : String.length "Invalid start_url: " = 19 := rfl
  have l2 : String.length "Invalid IPv6 URL" = 16 := rfl
  rw [l1, l2] at h2
  omega

/-- C7 counterexample: a seed whose very normalization raises.  For
`"http://["`, `seed_rejected` is false (the stated scheme/host rule never
fires because normalization itself raises), yet `crawl` does not return a
report: it raises the parser's `ValueError("Invalid IPv6 URL")` — so
"otherwise crawl returns a CrawlReport without raising" fails. -/
theorem C7_counterexample :
    seed_rejected "http://[".data = false ∧
    crawl nullCollaborators "http://[".data [] 10 =
      .error (.valueError "Invalid IPv6 URL") := by
  refine ⟨by decide, by decide⟩

/-- C7 (amended): `crawl` fails with the `InvalidSeedError`
(`ValueError("Invalid start_url: ...")`) iff the seed normalizes and
re-parses successfully to a URL whose scheme is outside http/https or whose
netloc is empty; and whenever the seed is rejected the outcome is identical
for every collaborator bundle — no fetch is attempted, the crawl never
starts.  (Normalization itself may instead raise the parse error
`"Invalid IPv6 URL"`, before any fetch, and the same parse error can arise
mid-crawl from a fetched page's href, so a valid seed does not guarantee a
report.) -/
theorem C7_invalid_seed_amended (C : Collaborators) (seed : Str)
    (terms : List Str) (N : Nat) :
    ((∃ r, crawl C seed terms N =
        .error (.valueError ("Invalid start_url: " ++ String.mk r)))
      ↔ seed_rejected seed = true) ∧
    (seed_rejected seed = true →
      ∀ C' : Collaborators, crawl C' seed terms N = crawl C seed terms N) := by
  cases hn : normalize_url seed with
  | error e =>
    have hcr : ∀ D : Collaborators, crawl D seed terms N = .error e := by
      intro D
      simp only [crawl, bind, hn]
      rfl
    refine ⟨⟨?_, ?_⟩, ?_⟩
    · rintro ⟨r, hr⟩
      rw [hcr C] at hr
      have he := normalize_url_error_msg hn
      rw [he] at hr
      exact absurd (PyError.valueError.inj (Except.error.inj hr)).symm
        (invalid_seed_msg_ne r)
    · intro hrej
      simp only [seed_rejected, hn] at hrej
      exact Bool.noConfusion hrej
    · intro _ C'
      rw [hcr C', hcr C]
  | ok r =>
    cases hp : urlparse r [] true with
    | error e =>
      have hcr : ∀ D : Collaborators, crawl D seed terms N = .error e := by
        intro D
        simp only [crawl, bind, hn, exceptOkBind, hp]
        rfl
      refine ⟨⟨?_, ?_⟩, ?_⟩
      · rintro ⟨r', hr⟩
        rw [hcr C] at hr
        have he := urlparse_error_msg hp
        rw [he] at hr
        exact absurd (PyError.valueError.inj (Except.error.inj hr)).symm
          (invalid_seed_msg_ne r')
      · intro hrej
        simp only [seed_rejected, hn, hp] at hrej
        exact Bool.noConfusion hrej
      · intro _ C'
        rw [hcr C', hcr C]
    | ok p =>
      by_cases hbad :
        ¬(p.scheme = "http".data ∨ p.scheme = "https".data) ∨ p.netloc = []
      · have hcr : ∀ D : Collaborators, crawl D seed terms N =
            .error (.valueError ("Invalid start_url: " ++ String.mk r)) := by
          intro D
          simp only [crawl, bind, hn, exceptOkBind, hp]
          rw [if_pos hbad]
          rfl
        refine ⟨⟨?_, ?_⟩, ?_⟩
        · intro _
          simp only [seed_rejected, hn, hp]
          exact decide_eq_true hbad
        · intro _
          exact ⟨r, hcr C⟩
        · intro _ C'
          rw [hcr C', hcr C]
      · have hcr : ∀ D : Collaborators, crawl D seed terms N =
            crawlLoop D terms N p.netloc [] [r] [] 0 := by
          intro D
          simp only [crawl, bind, hn, exceptOkBind, hp]
          rw [if_neg hbad]
        refine ⟨⟨?_, ?_⟩, ?_⟩
        · rintro ⟨r', hr⟩
          rw [hcr C] at hr
          have := crawlLoop_error_msg C terms N p.netloc [] [r] [] 0 _ hr
          exact absurd (PyError.valueError.inj this) (invalid_seed_msg_ne r')
        · intro hrej
          simp only [seed_rejected, hn, hp] at hrej
          exact absurd (of_decide_eq_true hrej) hbad
        · intro hrej
          simp only [seed_rejected, hn, hp] at hrej
          exact absurd (of_decide_eq_true hrej) hbad

/-- Witness for the amended C7 theorem: an `ftp` seed is rejected, and the
rejection is collaborator-independent. -/
theorem C7_witness :
    (∃ r, crawl nullCollaborators "ftp://a.com".data [] 5 =
      .error (.valueError ("Invalid start_url: " ++ String.mk r))) ∧
    ∀ C' : Collaborators, crawl C' "ftp://a.com".data [] 5 =
      crawl nullCollaborators "ftp://a.com".data [] 5 :=
  ⟨(C7_invalid_seed_amended nullCollaborators "ftp://a.com".data [] 5).1.mpr
      (by decide),
   (C7_invalid_seed_amended nullCollaborators "ftp://a.com".data [] 5).2
      (by decide)⟩

theorem crawlLoop_results_fetched (C : Collaborators) (terms : List Str) (N : Nat)
    (allowed : Str) :
    ∀ visited queue results attempts,
      (∀ rec ∈ results, ∃ html, html ≠ [] ∧
        fetch_page C.decodeEnc C.decodeUtf8Replace (C.net rec.url) = some html) →
      ∀ out, crawlLoop C terms N allowed visited queue results attempts = .ok out →
        ∀ rec ∈ out.results, ∃ html, html ≠ [] ∧
          fetch_page C.decodeEnc C.decodeUtf8Replace (C.net rec.url) = some html := by
  intro visited queue results attempts
  induction visited, queue, results, attempts using crawlLoop.induct C terms N allowed with
  | case1 visited results attempts =>
    intro hres out hok
    rw [crawlLoop.eq_def] at hok
    simp only at hok
    cases hok
    exact hres
  | case2 visited results attempts r rs hlt e hnorm =>
    intro hres out hok
    rw [crawlLoop.eq_def] at hok
    simp only [dif_pos hlt, hnorm] at hok
    cases hok
  | case3 visited results attempts r rs hlt url hnorm hmem ih =>
    intro hres out hok
    rw [crawlLoop.eq_def] at hok
    simp only [dif_pos hlt, hnorm, if_pos hmem] at hok
    exact ih hres out hok
  | case4 visited results attempts r rs hlt url hnorm hmem hfetch ih =>
    intro hres out hok
    rw [crawlLoop.eq_def] at hok
    simp only [dif_pos hlt, hnorm, if_neg hmem, hfetch] at hok
    exact ih hres out hok
  | case5 visited results attempts r rs hlt url hnorm hmem hfetch ih =>
    intro hres out hok
    rw [crawlLoop.eq_def] at hok
    simp [dif_pos hlt, hnorm, if_neg hmem, hfetch] at hok
    exact ih hres out hok
  | case6 visited results attempts r rs hlt url hnorm hmem html hfetch hempty e hext =>
    intro hres out hok
    rw [crawlLoop.eq_def] at hok
    simp [dif_pos hlt, hnorm, if_neg hmem, hfetch, hempty, hext] at hok
  | case7 visited results attempts r rs hlt url hnorm hmem html hfetch hempty analysis links hext ih =>
    intro hres out hok
    rw [crawlLoop.eq_def] at hok
    simp [dif_pos hlt, hnorm, if_neg hmem, hfetch, hempty, hext] at hok
    refine ih ?_ out hok
    intro rec hrec
    rcases List.mem_append.mp hrec with hold | hnew
    · exact hres rec hold
    · have : rec = ⟨url, (analyze_content (C.pageText html) terms).word_count,
          (analyze_content (C.pageText html) terms).matchCounts⟩ := by
        simpa using hnew
      rw [this]
      exact ⟨html, hempty, hfetch⟩
  | case8 visited results attempts r rs hlt =>
    intro hres out hok
    rw [crawlLoop.eq_def] at hok
    simp only [dif_neg hlt] at hok
    cases hok
    exact hres

theorem fetch_page_none_of_acc {dE : Str → List Nat → Option Str}
    {dU : List Nat → Str} {enc : Option Str} {chunks : List (List Nat)}
    (hacc : accumulateChunks chunks [] = none) :
    fetch_page dE dU (some ⟨true, some "text/html".data, chunks, enc⟩) = none := by
  simp only [fetch_page]
  rw [if_neg (by decide), if_neg (by decide), hacc]

set_option maxRecDepth 4000 in
/-- C8: a per-page fetch failure never aborts the crawl and never produces a
report entry: `fetch_page` returns `None` for a JSON content type, for a
transport failure, and for a body over the byte cap; every record of a
finished crawl comes from a fetch that returned a non-empty body; and in a
concrete two-URL frontier where the first fetch fails, the crawl still
processes the second URL (two fetch attempts, both URLs visited, one
record). -/
theorem C8_fetch_failure_contained :
    (∀ (dE : Str → List Nat → Option Str) (dU : List Nat → Str)
        (chunks : List (List Nat)) (enc : Option Str),
      fetch_page dE dU (some ⟨true, some "application/json".data, chunks, enc⟩) =
        none) ∧
    (∀ (dE : Str → List Nat → Option Str) (dU : List Nat → Str),
      fetch_page dE dU none = none) ∧
    (∀ (dE : Str → List Nat → Option Str) (dU : List Nat → Str) (enc : Option Str),
      fetch_page dE dU
        (some ⟨true, some "text/html".data, [List.replicate (MAX_BYTES + 1) 0],
          enc⟩) = none) ∧
    (∀ (C : Collaborators) (seed : Str) (terms : List Str) (N : Nat)
        (out : CrawlOutcome), crawl C seed terms N = .ok out →
      ∀ rec ∈ out.results, ∃ html, html ≠ [] ∧
        fetch_page C.decodeEnc C.decodeUtf8Replace (C.net rec.url) = some html) ∧
    crawlLoop demoCollab [] 10 "a.com".data []
        ["http://a.com/p1".data, "http://a.com/p2".data] [] 0 =
      .ok ⟨[⟨"http://a.com/p2".data, 2, []⟩],
        ["http://a.com/p2".data, "http://a.com/p1".data], 2⟩ := by
  refine ⟨?_, ?_, ?_, ?_, ?_⟩
  · intro dE dU chunks enc
    simp only [fetch_page]
    rw [if_neg (by decide), if_pos (by decide)]
  · intro dE dU
    rfl
  · intro dE dU enc
    apply fetch_page_none_of_acc
    have hne : List.replicate (MAX_BYTES + 1) (0 : Nat) ≠ [] := by
      intro hh
      have h2 := congrArg List.length hh
      rw [List.length_replicate] at h2
      simp at h2
    have hlen : (([] : List Nat) ++ List.replicate (MAX_BYTES + 1) 0).length >
        MAX_BYTES := by
      rw [List.nil_append, List.length_replicate]
      omega
    simp only [accumulateChunks]
    rw [if_neg hne, if_pos hlen]
  · intro C seed terms N out hok
    simp only [crawl, bind] at hok
    cases hn : normalize_url seed with
    | error e => rw [hn] at hok; cases hok
    | ok r =>
      rw [hn, exceptOkBind] at hok
      cases hp : urlparse r [] true with
      | error e => rw [hp] at hok; cases hok
      | ok p =>
        rw [hp, exceptOkBind] at hok
        split at hok
        · cases hok
        · exact crawlLoop_results_fetched C terms N p.netloc [] [r] [] 0
            (by intro rec h; cases h) out hok
  · have hn1 : normalize_url "http://a.com/p1".data = .ok "http://a.com/p1".data := by
      decide
    have hn2 : normalize_url "http://a.com/p2".data = .ok "http://a.com/p2".data := by
      decide
    have hf1 : fetch_page demoCollab.decodeEnc demoCollab.decodeUtf8Replace
        (demoCollab.net "http://a.com/p1".data) = none := by decide
    have hf2 : fetch_page demoCollab.decodeEnc demoCollab.decodeUtf8Replace
        (demoCollab.net "http://a.com/p2".data) = some "hello".data := by decide
    have hex : extract_links (demoCollab.anchorHrefs "hello".data)
        "http://a.com/p2".data "a.com".data = .ok [] := by decide
    have han : analyze_content (demoCollab.pageText "hello".data) [] =
        ⟨2, []⟩ := by decide
    rw [crawlLoop.eq_def]
    simp +decide [hn1, hf1]
    rw [crawlLoop.eq_def]
    simp +decide [hn2, hf2, hex, han, enqueueLinks]
    rw [crawlLoop.eq_def]

/-- Witness for C8: the no-record-for-failed-fetch clause applied to a
concrete crawl whose only fetch fails. -/
theorem C8_witness :
    crawl nullCollaborators "http://a.com".data [] 10 =
      .ok ⟨[], ["http://a.com".data], 1⟩ ∧
    ∀ rec ∈ (⟨[], ["http://a.com".data], 1⟩ : CrawlOutcome).results,
      ∃ html, html ≠ [] ∧
        fetch_page nullCollaborators.decodeEnc nullCollaborators.decodeUtf8Replace
          (nullCollaborators.net rec.url) = some html := by
  have h1 : normalize_url "http://a.com".data = .ok "http://a.com".data := by decide
  have h2 : urlparse "http://a.com".data [] true =
      .ok ⟨"http".data, "a.com".data, [], [], [], []⟩ := by decide
  have hok : crawl nullCollaborators "http://a.com".data [] 10 =
      .ok ⟨[], ["http://a.com".data], 1⟩ := by
    rw [crawl]
    simp only [h1, h2, bind, exceptOkBind]
    rw [if_neg (by decide)]
    rw [crawlLoop.eq_def]
    simp +decide [h1, nullCollaborators, fetch_page]
    rw [crawlLoop.eq_def]
  exact ⟨hok, C8_fetch_failure_contained.2.2.2.1 nullCollaborators
    "http://a.com".data [] 10 ⟨[], ["http://a.com".data], 1⟩ hok⟩

/-- C10 (implicit behavior, confirmed): a fetch that succeeds with an EMPTY
decoded body is treated exactly like a failed fetch — no record is ever
produced for a URL whose fetch returned `Some ""` — while the URL is still
visited and counted against the budget, as the concrete run shows
(`fetch_page = some ""`, visited has the URL, one attempt, empty report). -/
theorem C10_empty_body_like_failure :
    (∀ (C : Collaborators) (seed : Str) (terms : List Str) (N : Nat)
        (out : CrawlOutcome), crawl C seed terms N = .ok out →
      ∀ rec ∈ out.results,
        fetch_page C.decodeEnc C.decodeUtf8Replace (C.net rec.url) ≠ some []) ∧
    fetch_page emptyBodyCollab.decodeEnc emptyBodyCollab.decodeUtf8Replace
      (emptyBodyCollab.net "http://a.com".data) = some [] ∧
    crawl emptyBodyCollab "http://a.com".data [] 10 =
      .ok ⟨[], ["http://a.com".data], 1⟩ := by
  have h1 : normalize_url "http://a.com".data = .ok "http://a.com".data := by decide
  have h2 : urlparse "http://a.com".data [] true =
      .ok ⟨"http".data, "a.com".data, [], [], [], []⟩ := by decide
  refine ⟨?_, by decide, ?_⟩
  · intro C seed terms N out hok rec hrec hcontra
    simp only [crawl, bind] at hok
    cases hn : normalize_url seed with
    | error e => rw [hn] at hok; cases hok
    | ok r =>
      rw [hn, exceptOkBind] at hok
      cases hp : urlparse r [] true with
      | error e => rw [hp] at hok; cases hok
      | ok p =>
        rw [hp, exceptOkBind] at hok
        split at hok
        · cases hok
        · rcases crawlLoop_results_fetched C terms N p.netloc [] [r] [] 0
            (by intro rec2 h; cases h) out hok rec hrec with ⟨html, hne, hfe⟩
          rw [hfe] at hcontra
          exact hne (Option.some.inj hcontra)
  · rw [crawl]
    simp only [h1, h2, bind, exceptOkBind]
    rw [if_neg (by decide)]
    rw [crawlLoop.eq_def]
    simp +decide [h1, emptyBodyCollab, fetch_page, accumulateChunks]
    rw [crawlLoop.eq_def]

/-- Witness for C10: the no-record clause applied to the empty-body crawl. -/
theorem C10_witness :
    crawl emptyBodyCollab "http://a.com".data [] 10 =
      .ok ⟨[], ["http://a.com".data], 1⟩ ∧
    ∀ rec ∈ (⟨[], ["http://a.com".data], 1⟩ : CrawlOutcome).results,
      fetch_page emptyBodyCollab.decodeEnc emptyBodyCollab.decodeUtf8Replace
        (emptyBodyCollab.net rec.url) ≠ some [] := by
  have h1 : normalize_url "http://a.com".data = .ok "http://a.com".data := by decide
  have h2 : urlparse "http://a.com".data [] true =
      .ok ⟨"http".data, "a.com".data, [], [], [], []⟩ := by decide
  have hok : crawl emptyBodyCollab "http://a.com".data [] 10 =
      .ok ⟨[], ["http://a.com".data], 1⟩ := by
    rw [crawl]
    simp only [h1, h2, bind, exceptOkBind]
    rw [if_neg (by decide)]
    rw [crawlLoop.eq_def]
    simp +decide [h1, emptyBodyCollab, fetch_page, accumulateChunks]
    rw [crawlLoop.eq_def]
  exact ⟨hok, C10_empty_body_like_failure.1 emptyBodyCollab "http://a.com".data
    [] 10 ⟨[], ["http://a.com".data], 1⟩ hok⟩
